import Mathlib

/-!
Shallow embedding of the press/release resolution engine of the pianoroll
program.

The embedded code is:
* `note_durations` and its data types from `src/midi.rs` (the resolver used by
  the library modules), including the three `println!("ERROR: ...")`
  diagnostics, modelled as a structured `Diagnostic` stream;
* the legacy resolver `note_durations` and the pitch validator `Note::try_from`
  from `src/main.rs`, whose anomaly arms `panic!`, modelled with `Except`;
* the note-event construction of `MidiImpl::write` from
  `src/midi_impl_ghakuf.rs` (press/release pairs, stably sorted by timestamp).

Machine integers are modelled as `Nat` (`u64` timestamps, `usize` tracks,
`u8` channels and pitches) and `Int` (the signed `i8` offset); where the
source does unchecked narrow arithmetic (`raw + offset` on `i8` in
`src/main.rs`) the overflow case is modelled explicitly.

The module `src/note.rs` (type `MidiNote` with `checked_offset` and
`pianoroll_channel`) is not among the sources; those two functions are
modelled from the spec, as marked in their doc comments.
-/

/-- `NoteAction` from `src/midi.rs`: `enum NoteAction { On, Off }`. -/
inductive NoteAction where
  | on : NoteAction
  | off : NoteAction
deriving DecidableEq, Repr

/-- `NoteEvent` from `src/midi.rs`: timestamp, originating track and channel,
raw pitch, action. -/
structure NoteEvent where
  timestamp : Nat
  track : Nat
  channel : Nat
  note : Nat
  action : NoteAction
deriving DecidableEq, Repr

/-- `NoteWithDuration` from `src/midi.rs`. -/
structure NoteWithDuration where
  timestamp : Nat
  duration : Nat
  note : Nat
deriving DecidableEq, Repr

/-- `InFlightInfo`, the record stored per open hole by `note_durations` in
`src/midi.rs`. -/
structure InFlightInfo where
  midi_track : Nat
  midi_channel : Nat
  timestamp : Nat
deriving DecidableEq, Repr

/-- Modelled from the spec: the numeric value of `MidiNote::C1`, the lowest
playable pitch, in standard MIDI numbering (C-1 = 0, so C1 = 24).  The module
`src/note.rs` defining `MidiNote` is not among the sources; the octave
numbering is fixed by the layout comment in `src/main.rs` (80 holes, C1..G7). -/
def MidiNote.C1 : Nat := 24

/-- Modelled from the spec: the numeric value of `MidiNote::G7`, the highest
playable pitch (C1 + 79 = 103; the closed interval C1..G7 spans exactly 80
semitones). -/
def MidiNote.G7 : Nat := 103

/-- Modelled from the spec: `MidiNote::checked_offset` from the missing
`src/note.rs` — "compute `resolved = raw_pitch + offset` using a
representation wide enough to avoid overflow"; the sum is a `MidiNote` only
when it lies in the MIDI pitch domain 0..=127. -/
def MidiNote.checked_offset (note : Nat) (offset : Int) : Option Nat :=
  let resolved : Int := (note : Int) + offset
  if 0 ≤ resolved ∧ resolved ≤ 127 then some resolved.toNat else none

/-- Modelled from the spec: `MidiNote::pianoroll_channel` from the missing
`src/note.rs` — `Some` exactly on the closed playable interval C1..=G7,
mapping it to the roll-hole index (8 = C1 .. 87 = G7 per the layout comment in
`src/main.rs`). -/
def MidiNote.pianoroll_channel (note : Nat) : Option Nat :=
  if MidiNote.C1 ≤ note ∧ note ≤ MidiNote.G7 then some (note - MidiNote.C1 + 8) else none

/-- The pitch admission computation of `note_durations` in `src/midi.rs`
(lines 47-55): `event.note.checked_offset(offset)` followed by the
`pianoroll_channel().is_some()` guard; `none` is the shared
`Some(_) | None` arm that prints the out-of-range diagnostic. -/
def resolveNote (note : Nat) (offset : Int) : Option Nat :=
  match MidiNote.checked_offset note offset with
  | some n => if (MidiNote.pianoroll_channel n).isSome then some n else none
  | none => none

/-- One structured record per `println!("ERROR: ...")` in `note_durations`
(`src/midi.rs`), carrying exactly the values interpolated by the source. -/
inductive Diagnostic where
  | outOfRange (timestamp track channel note : Nat) (offset : Int) : Diagnostic
  | alreadyPressed (timestamp note track channel pressTimestamp : Nat) : Diagnostic
  | notPressed (timestamp note track channel : Nat) : Diagnostic
deriving DecidableEq, Repr

/-- The mutable state of the loop in `note_durations` (`src/midi.rs`):
`finished_notes`, the `BTreeMap` `in_flight` (modelled as a lookup function),
and the stream of diagnostics printed so far. -/
structure ResolverState where
  finished : List NoteWithDuration
  in_flight : Nat → Option InFlightInfo
  diags : List Diagnostic

/-- Pointwise update of the `in_flight` map (`entry.insert` / `entry.remove`). -/
def updateMap (m : Nat → Option InFlightInfo) (k : Nat) (v : Option InFlightInfo) :
    Nat → Option InFlightInfo :=
  fun n => if n = k then v else m n

/-- The state at the top of `note_durations`: empty output, empty map. -/
def initState : ResolverState :=
  { finished := [], in_flight := fun _ => none, diags := [] }

/-- The body of the `for event in notes` loop of `note_durations` in
`src/midi.rs` (lines 41-84): filter, offset+range admission, then the
four-way `(action, entry)` match. -/
def step (filter : NoteEvent → Option Int) (s : ResolverState) (event : NoteEvent) :
    ResolverState :=
  match filter event with
  | none => s
  | some offset =>
    match resolveNote event.note offset with
    | none =>
      { s with diags := s.diags ++
          [Diagnostic.outOfRange event.timestamp event.track event.channel
            event.note offset] }
    | some note =>
      match event.action, s.in_flight note with
      | NoteAction.on, none =>
        { s with in_flight :=
            updateMap s.in_flight note (some ⟨event.track, event.channel, event.timestamp⟩) }
      | NoteAction.on, some e =>
        { s with diags := s.diags ++
            [Diagnostic.alreadyPressed event.timestamp note e.midi_track
              e.midi_channel e.timestamp] }
      | NoteAction.off, none =>
        { s with diags := s.diags ++
            [Diagnostic.notPressed event.timestamp note event.track event.channel] }
      | NoteAction.off, some e =>
        { s with
            in_flight := updateMap s.in_flight note none,
            finished := s.finished ++
              [{ timestamp := e.timestamp,
                 duration := event.timestamp - e.timestamp,
                 note := note }] }

/-- The full run of the `note_durations` loop (`src/midi.rs`) over a finite
feed, returning the final state (output, open holes, diagnostics). -/
def runState (events : List NoteEvent) (filter : NoteEvent → Option Int) :
    ResolverState :=
  events.foldl (step filter) initState

/-- `note_durations` from `src/midi.rs` (lines 26-87): the returned
`finished_notes` vector. -/
def note_durations (events : List NoteEvent) (filter : NoteEvent → Option Int) :
    List NoteWithDuration :=
  (runState events filter).finished

/-- `Note::try_from` from `src/main.rs` (lines 34-43): rejects a raw pitch
below `C1` or above `G7`. -/
def Note.tryFrom (raw : Nat) : Option Nat :=
  if raw < MidiNote.C1 ∨ raw > MidiNote.G7 then none else some raw

/-- The `panic!` exits of `note_durations` in `src/main.rs`, plus the `i8`
overflow of `raw + offset` at line 163 (a panic in debug builds). -/
inductive MainPanic where
  | offsetOverflow (raw offset : Int) : MainPanic
  | noteOutOfRange (resolved : Int) : MainPanic
  | alreadyPressed (note : Nat) (info : InFlightInfo) : MainPanic
  | notPressed (note timestamp : Nat) : MainPanic
deriving DecidableEq, Repr

/-- Signed 8-bit addition as performed by `raw + offset` in `src/main.rs`
line 163: defined only when the mathematical sum fits in `i8`. -/
def i8Add (a b : Int) : Option Int :=
  let s := a + b
  if -128 ≤ s ∧ s ≤ 127 then some s else none

/-- `Note::try_from(after_offset)` applied to the `i8` sum in `src/main.rs`:
out of C1..=G7 (in particular any negative value) is rejected. -/
def Note.tryFromInt (resolved : Int) : Option Nat :=
  if resolved < (MidiNote.C1 : Int) ∨ resolved > (MidiNote.G7 : Int) then none
  else some resolved.toNat

/-- State of the legacy loop in `src/main.rs` (no diagnostics: every anomaly
panics). -/
structure MainState where
  finished : List NoteWithDuration
  in_flight : Nat → Option InFlightInfo

/-- The loop of the legacy `note_durations` in `src/main.rs` (lines 141-196);
the `panic!` and `unwrap_or_else(|| panic!(..))` exits are `Except.error`. -/
def MainRs.go (filter : NoteEvent → Option Int) :
    List NoteEvent → MainState → Except MainPanic MainState
  | [], s => Except.ok s
  | event :: rest, s =>
    match filter event with
    | none => MainRs.go filter rest s
    | some offset =>
      match i8Add (event.note : Int) offset with
      | none => Except.error (MainPanic.offsetOverflow (event.note : Int) offset)
      | some resolved =>
        match Note.tryFromInt resolved with
        | none => Except.error (MainPanic.noteOutOfRange resolved)
        | some note =>
          match event.action, s.in_flight note with
          | NoteAction.on, none =>
            MainRs.go filter rest
              { s with in_flight :=
                  updateMap s.in_flight note (some ⟨event.track, event.channel, event.timestamp⟩) }
          | NoteAction.on, some e =>
            Except.error (MainPanic.alreadyPressed note e)
          | NoteAction.off, none =>
            Except.error (MainPanic.notPressed note event.timestamp)
          | NoteAction.off, some e =>
            MainRs.go filter rest
              { finished := s.finished ++
                  [{ timestamp := e.timestamp,
                     duration := event.timestamp - e.timestamp,
                     note := note }],
                in_flight := updateMap s.in_flight note none }

/-- `note_durations` from `src/main.rs`: aborts with the first panic, else
returns `finished_notes`. -/
def MainRs.note_durations (events : List NoteEvent)
    (filter : NoteEvent → Option Int) : Except MainPanic (List NoteWithDuration) :=
  match MainRs.go filter events { finished := [], in_flight := fun _ => none } with
  | Except.ok s => Except.ok s.finished
  | Except.error e => Except.error e

/-- The press/release pair construction of `MidiImpl::write`
(`src/midi_impl_ghakuf.rs` lines 105-121): per interval one `On` at the start
timestamp and one `Off` at start + duration, on track 0, channel 0, in
interval order. -/
def builtEvents : List NoteWithDuration → List NoteEvent
  | [] => []
  | n :: rest =>
    { timestamp := n.timestamp, track := 0, channel := 0, note := n.note,
      action := NoteAction.on } ::
    { timestamp := n.timestamp + n.duration, track := 0, channel := 0,
      note := n.note, action := NoteAction.off } :: builtEvents rest

/-- Timestamp order on note events, the key of
`note_events.sort_by_key(|event| event.timestamp)`. -/
def evLE (a b : NoteEvent) : Prop :=
  a.timestamp ≤ b.timestamp

instance : DecidableRel evLE :=
  fun a b => Nat.decLe a.timestamp b.timestamp

instance : IsTotal NoteEvent evLE :=
  ⟨fun a b => Nat.le_total a.timestamp b.timestamp⟩

instance : IsTrans NoteEvent evLE :=
  ⟨fun _ _ _ hab hbc => Nat.le_trans hab hbc⟩

/-- `note_events.sort_by_key(|event| event.timestamp)`
(`src/midi_impl_ghakuf.rs` line 122): Rust's slice sort is stable, and a
stable sort is extensionally unique, so it is realised by the stable
insertion sort. -/
def sortEvents (l : List NoteEvent) : List NoteEvent :=
  l.insertionSort evLE

/-- The note-event sequence that `MidiImpl::write` constructs and serialises. -/
def write_note_events (notes : List NoteWithDuration) : List NoteEvent :=
  sortEvents (builtEvents notes)

/-! ### Case lemmas for the loop body of `note_durations` (`src/midi.rs`) -/

theorem step_not_selected (f : NoteEvent → Option Int) (s : ResolverState)
    (e : NoteEvent) (h : f e = none) : step f s e = s := by
  simp [step, h]

theorem step_out_of_range (f : NoteEvent → Option Int) (s : ResolverState)
    (e : NoteEvent) (offset : Int) (h1 : f e = some offset)
    (h2 : resolveNote e.note offset = none) :
    step f s e = { s with diags := s.diags ++
      [Diagnostic.outOfRange e.timestamp e.track e.channel e.note offset] } := by
  simp [step, h1, h2]

theorem step_on_vacant (f : NoteEvent → Option Int) (s : ResolverState)
    (e : NoteEvent) (offset : Int) (note : Nat) (h1 : f e = some offset)
    (h2 : resolveNote e.note offset = some note) (h3 : e.action = NoteAction.on)
    (h4 : s.in_flight note = none) :
    step f s e = { s with in_flight := updateMap s.in_flight note (some ⟨e.track, e.channel, e.timestamp⟩) } := by
  simp [step, h1, h2, h3, h4]

theorem step_on_occupied (f : NoteEvent → Option Int) (s : ResolverState)
    (e : NoteEvent) (offset : Int) (note : Nat) (i : InFlightInfo)
    (h1 : f e = some offset) (h2 : resolveNote e.note offset = some note)
    (h3 : e.action = NoteAction.on) (h4 : s.in_flight note = some i) :
    step f s e = { s with diags := s.diags ++
      [Diagnostic.alreadyPressed e.timestamp note i.midi_track i.midi_channel
        i.timestamp] } := by
  simp [step, h1, h2, h3, h4]

theorem step_off_vacant (f : NoteEvent → Option Int) (s : ResolverState)
    (e : NoteEvent) (offset : Int) (note : Nat) (h1 : f e = some offset)
    (h2 : resolveNote e.note offset = some note) (h3 : e.action = NoteAction.off)
    (h4 : s.in_flight note = none) :
    step f s e = { s with diags := s.diags ++
      [Diagnostic.notPressed e.timestamp note e.track e.channel] } := by
  simp [step, h1, h2, h3, h4]

theorem step_off_occupied (f : NoteEvent → Option Int) (s : ResolverState)
    (e : NoteEvent) (offset : Int) (note : Nat) (i : InFlightInfo)
    (h1 : f e = some offset) (h2 : resolveNote e.note offset = some note)
    (h3 : e.action = NoteAction.off) (h4 : s.in_flight note = some i) :
    step f s e = { s with
      in_flight := updateMap s.in_flight note none,
      finished := s.finished ++
        [{ timestamp := i.timestamp, duration := e.timestamp - i.timestamp,
           note := note }] } := by
  simp [step, h1, h2, h3, h4]

/-! ### Derived counting notions over feeds, outputs and diagnostics -/

/-- The resolved pitch an event is admitted under: the filter's offset applied
through `checked_offset` and the `pianoroll_channel` guard; `none` when the
event is unselected or out of range. -/
def resolvedPitch (f : NoteEvent → Option Int) (e : NoteEvent) : Option Nat :=
  match f e with
  | none => none
  | some offset => resolveNote e.note offset

/-- The event is selected, in range, resolves to pitch `p`, and is a Press. -/
def isAdmittedOnFor (f : NoteEvent → Option Int) (p : Nat) (e : NoteEvent) : Bool :=
  (resolvedPitch f e == some p) && (e.action == NoteAction.on)

/-- The event is selected, in range, resolves to pitch `p`, and is a Release. -/
def isAdmittedOffFor (f : NoteEvent → Option Int) (p : Nat) (e : NoteEvent) : Bool :=
  (resolvedPitch f e == some p) && (e.action == NoteAction.off)

/-- The event is selected, in range, and is a Release (any pitch). -/
def isAdmittedOff (f : NoteEvent → Option Int) (e : NoteEvent) : Bool :=
  (resolvedPitch f e).isSome && (e.action == NoteAction.off)

/-- The diagnostic is a re-press ("already pressed") report for pitch `p`. -/
def isRePressFor (p : Nat) : Diagnostic → Bool
  | Diagnostic.alreadyPressed _ n _ _ _ => n == p
  | _ => false

/-- The diagnostic is an orphan-release ("not pressed yet") report for pitch `p`. -/
def isOrphanFor (p : Nat) : Diagnostic → Bool
  | Diagnostic.notPressed _ n _ _ => n == p
  | _ => false

/-- The diagnostic is an orphan-release report (any pitch). -/
def isOrphan : Diagnostic → Bool
  | Diagnostic.notPressed _ _ _ _ => true
  | _ => false

/-- The interval is for pitch `p`. -/
def isIntervalFor (p : Nat) (nwd : NoteWithDuration) : Bool :=
  nwd.note == p

/-- 1 when the hole for pitch `p` is open in the in-flight map, else 0. -/
def openFor (p : Nat) (m : Nat → Option InFlightInfo) : Nat :=
  if (m p).isSome then 1 else 0

theorem updateMap_self (m : Nat → Option InFlightInfo) (k : Nat)
    (v : Option InFlightInfo) : updateMap m k v k = v := by
  simp [updateMap]

theorem updateMap_other (m : Nat → Option InFlightInfo) (k n : Nat)
    (v : Option InFlightInfo) (h : n ≠ k) : updateMap m k v n = m n := by
  simp [updateMap, h]

/-- Press-side conservation along a run: admitted presses for a pitch are
accounted for, one each, by emitted intervals, re-press diagnostics, and the
hole possibly left open. -/
theorem run_on_balance (f : NoteEvent → Option Int) (p : Nat) :
    ∀ (es : List NoteEvent) (s : ResolverState),
      ((es.foldl (step f) s).finished.countP (fun x => isIntervalFor p x)) +
        ((es.foldl (step f) s).diags.countP (fun x => isRePressFor p x)) +
        openFor p (es.foldl (step f) s).in_flight =
      s.finished.countP (fun x => isIntervalFor p x) +
        s.diags.countP (fun x => isRePressFor p x) + openFor p s.in_flight +
        es.countP (fun x => isAdmittedOnFor f p x) := by
  intro es
  induction es with
  | nil => intro s; simp
  | cons e rest ih =>
    intro s
    rw [List.foldl_cons, List.countP_cons, ih (step f s e)]
    rcases hf : f e with _ | offset
    · rw [step_not_selected f s e hf]
      simp [isAdmittedOnFor, resolvedPitch, hf]
    · rcases hr : resolveNote e.note offset with _ | note
      · rw [step_out_of_range f s e offset hf hr]
        simp [isAdmittedOnFor, resolvedPitch, hf, hr, isRePressFor]
      · have hadm : resolvedPitch f e = some note := by
          simp [resolvedPitch, hf, hr]
        rcases ha : e.action with _ | _
        · rcases ho : s.in_flight note with _ | i
          · rw [step_on_vacant f s e offset note hf hr ha ho]
            by_cases hp : note = p
            · subst hp
              simp [isAdmittedOnFor, hadm, ha, openFor, ho, updateMap_self]
              omega
            · have hne : p ≠ note := fun h => hp h.symm
              have : (isAdmittedOnFor f p e) = false := by
                simp [isAdmittedOnFor, hadm, hp]
              simp [this, openFor, updateMap_other _ _ _ _ hne]
          · rw [step_on_occupied f s e offset note i hf hr ha ho]
            by_cases hp : note = p
            · subst hp
              simp [isAdmittedOnFor, hadm, ha, List.countP_append, isRePressFor]
              omega
            · have : (isAdmittedOnFor f p e) = false := by
                simp [isAdmittedOnFor, hadm, hp]
              simp [this, List.countP_append, isRePressFor, hp]
        · have : (isAdmittedOnFor f p e) = false := by
            simp [isAdmittedOnFor, ha]
          rcases ho : s.in_flight note with _ | i
          · rw [step_off_vacant f s e offset note hf hr ha ho]
            simp [this, List.countP_append, isRePressFor]
          · rw [step_off_occupied f s e offset note i hf hr ha ho]
            by_cases hp : note = p
            · subst hp
              simp [this, List.countP_append, isIntervalFor, openFor, ho,
                updateMap_self]
              omega
            · have hne : p ≠ note := fun h => hp h.symm
              simp [this, List.countP_append, isIntervalFor, hp, openFor,
                updateMap_other _ _ _ _ hne]

/-- Release-side conservation along a run: admitted releases for a pitch are
accounted for, one each, by emitted intervals and orphan-release diagnostics;
none is ever absorbed silently. -/
theorem run_off_balance (f : NoteEvent → Option Int) (p : Nat) :
    ∀ (es : List NoteEvent) (s : ResolverState),
      ((es.foldl (step f) s).finished.countP (fun x => isIntervalFor p x)) +
        ((es.foldl (step f) s).diags.countP (fun x => isOrphanFor p x)) =
      s.finished.countP (fun x => isIntervalFor p x) +
        s.diags.countP (fun x => isOrphanFor p x) +
        es.countP (fun x => isAdmittedOffFor f p x) := by
  intro es
  induction es with
  | nil => intro s; simp
  | cons e rest ih =>
    intro s
    rw [List.foldl_cons, List.countP_cons, ih (step f s e)]
    rcases hf : f e with _ | offset
    · rw [step_not_selected f s e hf]
      simp [isAdmittedOffFor, resolvedPitch, hf]
    · rcases hr : resolveNote e.note offset with _ | note
      · rw [step_out_of_range f s e offset hf hr]
        simp [isAdmittedOffFor, resolvedPitch, hf, hr, isOrphanFor]
      · have hadm : resolvedPitch f e = some note := by
          simp [resolvedPitch, hf, hr]
        rcases ha : e.action with _ | _
        · have : (isAdmittedOffFor f p e) = false := by
            simp [isAdmittedOffFor, ha]
          rcases ho : s.in_flight note with _ | i
          · rw [step_on_vacant f s e offset note hf hr ha ho]
            simp [this]
          · rw [step_on_occupied f s e offset note i hf hr ha ho]
            simp [this, List.countP_append, isOrphanFor]
        · rcases ho : s.in_flight note with _ | i
          · rw [step_off_vacant f s e offset note hf hr ha ho]
            by_cases hp : note = p
            · subst hp
              simp [isAdmittedOffFor, hadm, ha, List.countP_append, isOrphanFor]
              omega
            · have : (isAdmittedOffFor f p e) = false := by
                simp [isAdmittedOffFor, hadm, hp]
              simp [this, List.countP_append, isOrphanFor, hp]
          · rw [step_off_occupied f s e offset note i hf hr ha ho]
            by_cases hp : note = p
            · subst hp
              simp [isAdmittedOffFor, hadm, ha, List.countP_append, isIntervalFor]
              omega
            · have : (isAdmittedOffFor f p e) = false := by
                simp [isAdmittedOffFor, hadm, hp]
              simp [this, List.countP_append, isIntervalFor, hp]

/-- Global release-side conservation: the number of emitted intervals plus the
number of orphan-release diagnostics equals the number of admitted releases. -/
theorem run_off_conservation (f : NoteEvent → Option Int) :
    ∀ (es : List NoteEvent) (s : ResolverState),
      (es.foldl (step f) s).finished.length +
        ((es.foldl (step f) s).diags.countP (fun x => isOrphan x)) =
      s.finished.length + s.diags.countP (fun x => isOrphan x) +
        es.countP (fun x => isAdmittedOff f x) := by
  intro es
  induction es with
  | nil => intro s; simp
  | cons e rest ih =>
    intro s
    rw [List.foldl_cons, List.countP_cons, ih (step f s e)]
    rcases hf : f e with _ | offset
    · rw [step_not_selected f s e hf]
      simp [isAdmittedOff, resolvedPitch, hf]
    · rcases hr : resolveNote e.note offset with _ | note
      · rw [step_out_of_range f s e offset hf hr]
        simp [isAdmittedOff, resolvedPitch, hf, hr, isOrphan]
      · have hadm : resolvedPitch f e = some note := by
          simp [resolvedPitch, hf, hr]
        rcases ha : e.action with _ | _
        · have : (isAdmittedOff f e) = false := by
            simp [isAdmittedOff, ha]
          rcases ho : s.in_flight note with _ | i
          · rw [step_on_vacant f s e offset note hf hr ha ho]
            simp [this]
          · rw [step_on_occupied f s e offset note i hf hr ha ho]
            simp [this, List.countP_append, isOrphan]
        · have : (isAdmittedOff f e) = true := by
            simp [isAdmittedOff, hadm, ha]
          rcases ho : s.in_flight note with _ | i
          · rw [step_off_vacant f s e offset note hf hr ha ho]
            simp [this, List.countP_append, isOrphan]
            omega
          · rw [step_off_occupied f s e offset note i hf hr ha ho]
            simp [this, List.length_append]
            omega

/-- Interval well-formedness against a feed `ES`: the start stamp is some
Press's timestamp, and start + duration is some Release's timestamp (so the
`u64` subtraction computed the exact difference). -/
def goodInterval (ES : List NoteEvent) (nwd : NoteWithDuration) : Prop :=
  (∃ e, e ∈ ES ∧ e.action = NoteAction.on ∧ e.timestamp = nwd.timestamp) ∧
  (∃ r, r ∈ ES ∧ r.action = NoteAction.off ∧ nwd.timestamp + nwd.duration = r.timestamp)

/-- Invariant preservation for the run of `note_durations` (`src/midi.rs`)
on a timestamp-nondecreasing suffix: every interval in the final output is
well formed against the ambient feed `ES`. -/
theorem run_good (f : NoteEvent → Option Int) (ES : List NoteEvent) :
    ∀ (es : List NoteEvent) (s : ResolverState),
      (∀ x, x ∈ es → x ∈ ES) →
      List.Pairwise (fun a b : NoteEvent => a.timestamp ≤ b.timestamp) es →
      (∀ p i, s.in_flight p = some i →
        (∃ e, e ∈ ES ∧ e.action = NoteAction.on ∧ e.timestamp = i.timestamp) ∧
        (∀ x, x ∈ es → i.timestamp ≤ x.timestamp)) →
      (∀ nwd, nwd ∈ s.finished → goodInterval ES nwd) →
      ∀ nwd, nwd ∈ (es.foldl (step f) s).finished → goodInterval ES nwd := by
  intro es
  induction es with
  | nil => intro s _ _ _ hfin nwd hm; exact hfin nwd hm
  | cons e rest ih =>
    intro s hsub hpw hifl hfin
    rw [List.foldl_cons]
    have hsub2 : ∀ x, x ∈ rest → x ∈ ES := fun x hx => hsub x (List.mem_cons_of_mem e hx)
    have hpw2 : List.Pairwise (fun a b : NoteEvent => a.timestamp ≤ b.timestamp) rest :=
      hpw.of_cons
    have hhead : ∀ x, x ∈ rest → e.timestamp ≤ x.timestamp :=
      fun x hx => (List.pairwise_cons.mp hpw).1 x hx
    have heES : e ∈ ES := hsub e (List.mem_cons_self e rest)
    rcases hf2 : f e with _ | offset
    · rw [step_not_selected f s e hf2]
      exact ih s hsub2 hpw2
        (fun p i hi => ⟨(hifl p i hi).1,
          fun x hx => (hifl p i hi).2 x (List.mem_cons_of_mem e hx)⟩) hfin
    · rcases hr : resolveNote e.note offset with _ | note
      · rw [step_out_of_range f s e offset hf2 hr]
        exact ih _ hsub2 hpw2
          (fun p i hi => ⟨(hifl p i hi).1,
            fun x hx => (hifl p i hi).2 x (List.mem_cons_of_mem e hx)⟩) hfin
      · rcases ha : e.action with _ | _
        · rcases ho : s.in_flight note with _ | i
          · rw [step_on_vacant f s e offset note hf2 hr ha ho]
            refine ih _ hsub2 hpw2 ?_ hfin
            intro p j hj
            by_cases hp : p = note
            · subst hp
              simp only [updateMap_self, Option.some.injEq] at hj
              subst hj
              exact ⟨⟨e, heES, ha, rfl⟩, fun x hx => hhead x hx⟩
            · simp only [updateMap_other _ _ _ _ hp] at hj
              exact ⟨(hifl p j hj).1,
                fun x hx => (hifl p j hj).2 x (List.mem_cons_of_mem e hx)⟩
          · rw [step_on_occupied f s e offset note i hf2 hr ha ho]
            exact ih _ hsub2 hpw2
              (fun p j hj => ⟨(hifl p j hj).1,
                fun x hx => (hifl p j hj).2 x (List.mem_cons_of_mem e hx)⟩) hfin
        · rcases ho : s.in_flight note with _ | i
          · rw [step_off_vacant f s e offset note hf2 hr ha ho]
            exact ih _ hsub2 hpw2
              (fun p j hj => ⟨(hifl p j hj).1,
                fun x hx => (hifl p j hj).2 x (List.mem_cons_of_mem e hx)⟩) hfin
          · rw [step_off_occupied f s e offset note i hf2 hr ha ho]
            refine ih _ hsub2 hpw2 ?_ ?_
            · intro p j hj
              by_cases hp : p = note
              · subst hp
                simp [updateMap_self] at hj
              · simp only [updateMap_other _ _ _ _ hp] at hj
                exact ⟨(hifl p j hj).1,
                  fun x hx => (hifl p j hj).2 x (List.mem_cons_of_mem e hx)⟩
            · intro nwd hm
              rcases List.mem_append.mp hm with hold | hnew
              · exact hfin nwd hold
              · have hle : i.timestamp ≤ e.timestamp :=
                  (hifl note i ho).2 e (List.mem_cons_self e rest)
                have hnwd : nwd = (⟨i.timestamp, e.timestamp - i.timestamp, note⟩ : NoteWithDuration) := by
                  simpa using hnew
                subst hnwd
                refine ⟨(hifl note i ho).1, ⟨e, heES, ha, ?_⟩⟩
                simpa using Nat.add_sub_cancel' hle

/-- Per-pitch restriction of the `note_durations` loop: the evolution of a
single pitch's hole and its emitted intervals (diagnostics dropped), fed only
the events admitted to that pitch. -/
def runFor (p : Nat) : List NoteEvent → Option InFlightInfo →
    Option InFlightInfo × List NoteWithDuration
  | [], o => (o, [])
  | e :: es, o =>
    match e.action, o with
    | NoteAction.on, none => runFor p es (some ⟨e.track, e.channel, e.timestamp⟩)
    | NoteAction.on, some i => runFor p es (some i)
    | NoteAction.off, none => runFor p es none
    | NoteAction.off, some i =>
      let r := runFor p es none
      (r.1, ⟨i.timestamp, e.timestamp - i.timestamp, p⟩ :: r.2)

/-- The state of one pitch under the full resolver run depends only on the
subsequence of events admitted to that pitch, and the intervals the run emits
for that pitch are exactly those of the per-pitch restriction. -/
theorem run_proj (f : NoteEvent → Option Int) (p : Nat) :
    ∀ (es : List NoteEvent) (s : ResolverState),
      ((es.foldl (step f) s).in_flight p =
        (runFor p (es.filter (fun e => resolvedPitch f e == some p)) (s.in_flight p)).1) ∧
      ((es.foldl (step f) s).finished.filter (fun x => isIntervalFor p x) =
        s.finished.filter (fun x => isIntervalFor p x) ++
          (runFor p (es.filter (fun e => resolvedPitch f e == some p)) (s.in_flight p)).2) := by
  intro es
  induction es with
  | nil => intro s; simp [runFor]
  | cons e rest ih =>
    intro s
    rw [List.foldl_cons]
    by_cases hadm : resolvedPitch f e = some p
    · have hpred : (resolvedPitch f e == some p) = true := by simp [hadm]
      rw [List.filter_cons, if_pos hpred]
      rcases hf2 : f e with _ | offset
      · rw [resolvedPitch, hf2] at hadm; cases hadm
      · have hr : resolveNote e.note offset = some p := by
          rw [resolvedPitch, hf2] at hadm; exact hadm
        rcases ha : e.action with _ | _
        · rcases ho : s.in_flight p with _ | i
          · rw [step_on_vacant f s e offset p hf2 hr ha ho]
            simpa [runFor, ha, updateMap_self] using
              ih { s with in_flight := updateMap s.in_flight p (some ⟨e.track, e.channel, e.timestamp⟩) }
          · rw [step_on_occupied f s e offset p i hf2 hr ha ho]
            simpa [runFor, ha, ho] using
              ih { s with diags := s.diags ++ [Diagnostic.alreadyPressed e.timestamp p i.midi_track i.midi_channel i.timestamp] }
        · rcases ho : s.in_flight p with _ | i
          · rw [step_off_vacant f s e offset p hf2 hr ha ho]
            simpa [runFor, ha, ho] using
              ih { s with diags := s.diags ++ [Diagnostic.notPressed e.timestamp p e.track e.channel] }
          · rw [step_off_occupied f s e offset p i hf2 hr ha ho]
            simpa [runFor, ha, updateMap_self, List.filter_append, isIntervalFor] using
              ih { s with in_flight := updateMap s.in_flight p none, finished := s.finished ++ [⟨i.timestamp, e.timestamp - i.timestamp, p⟩] }
    · have hpred : (resolvedPitch f e == some p) = false := by
        simpa using hadm
      rw [List.filter_cons, if_neg (by simp [hpred])]
      rcases hf2 : f e with _ | offset
      · rw [step_not_selected f s e hf2]
        exact ih s
      · rcases hr : resolveNote e.note offset with _ | q
        · rw [step_out_of_range f s e offset hf2 hr]
          simpa using
            ih { s with diags := s.diags ++ [Diagnostic.outOfRange e.timestamp e.track e.channel e.note offset] }
        · have hqp : p ≠ q := by
            intro h
            exact hadm (by simp [resolvedPitch, hf2, hr, h])
          rcases ha : e.action with _ | _
          · rcases ho : s.in_flight q with _ | i
            · rw [step_on_vacant f s e offset q hf2 hr ha ho]
              simpa [updateMap_other _ _ _ _ hqp] using
                ih { s with in_flight := updateMap s.in_flight q (some ⟨e.track, e.channel, e.timestamp⟩) }
            · rw [step_on_occupied f s e offset q i hf2 hr ha ho]
              simpa using
                ih { s with diags := s.diags ++ [Diagnostic.alreadyPressed e.timestamp q i.midi_track i.midi_channel i.timestamp] }
          · rcases ho : s.in_flight q with _ | i
            · rw [step_off_vacant f s e offset q hf2 hr ha ho]
              simpa using
                ih { s with diags := s.diags ++ [Diagnostic.notPressed e.timestamp q e.track e.channel] }
            · rw [step_off_occupied f s e offset q i hf2 hr ha ho]
              have hnq : isIntervalFor p (⟨i.timestamp, e.timestamp - i.timestamp, q⟩ : NoteWithDuration) = false := by
                simp [isIntervalFor]
                exact fun h => hqp h.symm
              simpa [updateMap_other _ _ _ _ hqp, List.filter_append, hnq] using
                ih { s with in_flight := updateMap s.in_flight q none, finished := s.finished ++ [⟨i.timestamp, e.timestamp - i.timestamp, q⟩] }

/-- Filtering commutes with ordered insertion into a sorted list. -/
theorem filter_orderedInsert (q : NoteEvent → Bool) (a : NoteEvent) :
    ∀ l : List NoteEvent, List.Sorted evLE l →
      (List.orderedInsert evLE a l).filter q =
        if q a then List.orderedInsert evLE a (l.filter q) else l.filter q := by
  intro l
  induction l with
  | nil =>
    intro _
    cases hqa : q a <;> simp [List.orderedInsert, List.filter_cons, hqa]
  | cons b t ih =>
    intro hs
    rcases List.sorted_cons.mp hs with ⟨hsb, hst⟩
    by_cases hab : evLE a b
    · simp only [List.orderedInsert, if_pos hab]
      cases hqa : q a
      · simp [List.filter_cons, hqa]
      · rw [List.filter_cons, if_pos hqa, if_pos rfl]
        rcases hfq : List.filter q (b :: t) with _ | ⟨c, cs⟩
        · simp [List.orderedInsert]
        · have hc : c ∈ b :: t := by
            have hcm : c ∈ List.filter q (b :: t) := by
              rw [hfq]; exact List.mem_cons_self c cs
            exact List.mem_of_mem_filter hcm
          have hac : evLE a c := by
            rcases List.mem_cons.mp hc with h | h
            · rw [h]; exact hab
            · exact Nat.le_trans hab (hsb c h)
          simp [List.orderedInsert, hac]
    · simp only [List.orderedInsert, if_neg hab]
      rw [List.filter_cons, List.filter_cons, ih hst]
      cases hqa : q a <;> cases hqb : q b <;>
        simp [List.filter_cons, hqa, hqb, List.orderedInsert, hab]

/-- Filtering commutes with the stable insertion sort. -/
theorem filter_insertionSort (q : NoteEvent → Bool) :
    ∀ l : List NoteEvent,
      (l.insertionSort evLE).filter q = (l.filter q).insertionSort evLE := by
  intro l
  induction l with
  | nil => simp
  | cons a l ih =>
    simp only [List.insertionSort]
    rw [filter_orderedInsert q a _ (List.sorted_insertionSort evLE l), ih,
      List.filter_cons]
    cases hqa : q a <;> simp [hqa, List.insertionSort]

/-- Every event built by `MidiImpl::write` stems from one interval: same
pitch, and timestamp equal to its start or its end. -/
theorem mem_builtEvents : ∀ (ns : List NoteWithDuration) (x : NoteEvent),
    x ∈ builtEvents ns → ∃ m, m ∈ ns ∧ x.note = m.note ∧
      (x.timestamp = m.timestamp ∨ x.timestamp = m.timestamp + m.duration) := by
  intro ns
  induction ns with
  | nil => intro x hx; simp [builtEvents] at hx
  | cons n rest ih =>
    intro x hx
    simp only [builtEvents, List.mem_cons] at hx
    rcases hx with h | h | h
    · exact ⟨n, List.mem_cons_self n rest, by rw [h], Or.inl (by rw [h])⟩
    · exact ⟨n, List.mem_cons_self n rest, by rw [h], Or.inr (by rw [h])⟩
    · rcases ih x h with ⟨m, hm, hn, ht⟩
      exact ⟨m, List.mem_cons_of_mem n hm, hn, ht⟩

/-- Filtering the built events by pitch is building the filtered intervals. -/
theorem filter_builtEvents (p : Nat) : ∀ ns : List NoteWithDuration,
    (builtEvents ns).filter (fun e => e.note == p) =
      builtEvents (ns.filter (fun n => n.note == p)) := by
  intro ns
  induction ns with
  | nil => simp [builtEvents]
  | cons n rest ih =>
    by_cases hp : n.note = p
    · simp [builtEvents, List.filter_cons, hp, ih]
    · simp [builtEvents, List.filter_cons, hp, ih]

/-- A lower bound on all interval boundaries yields one on all built events. -/
theorem builtEvents_le (t : Nat) : ∀ ns : List NoteWithDuration,
    (∀ m, m ∈ ns → t ≤ m.timestamp) →
    ∀ x, x ∈ builtEvents ns → t ≤ x.timestamp := by
  intro ns h x hx
  rcases mem_builtEvents ns x hx with ⟨m, hm, _, hts | hts⟩
  · rw [hts]; exact h m hm
  · rw [hts]; exact Nat.le_trans (h m hm) (Nat.le_add_right _ _)

/-- For pairwise non-overlapping intervals of one pitch, the built
press/release sequence is already nondecreasing by timestamp. -/
theorem builtEvents_sorted : ∀ ns : List NoteWithDuration,
    List.Pairwise (fun a b : NoteWithDuration => a.timestamp + a.duration ≤ b.timestamp) ns →
    List.Sorted evLE (builtEvents ns) := by
  intro ns
  induction ns with
  | nil => intro _; simp [builtEvents, List.Sorted]
  | cons n rest ih =>
    intro hpw
    rcases List.pairwise_cons.mp hpw with ⟨hn, hrest⟩
    have hsr : List.Sorted evLE (builtEvents rest) := ih hrest
    have hb : ∀ x, x ∈ builtEvents rest → n.timestamp + n.duration ≤ x.timestamp :=
      builtEvents_le _ rest hn
    simp only [builtEvents]
    refine List.sorted_cons.mpr ⟨?_, List.sorted_cons.mpr ⟨?_, hsr⟩⟩
    · intro x hx
      rcases List.mem_cons.mp hx with h | h
      · rw [h]; exact Nat.le_add_right _ _
      · exact Nat.le_trans (Nat.le_add_right _ _) (hb x h)
    · intro x hx
      exact hb x hx

/-- The per-pitch loop on an alternating press/release sequence reproduces the
intervals exactly and leaves the hole closed. -/
theorem runFor_built (p : Nat) : ∀ ns : List NoteWithDuration,
    (∀ n, n ∈ ns → n.note = p) →
    runFor p (builtEvents ns) none = (none, ns) := by
  intro ns
  induction ns with
  | nil => intro _; simp [builtEvents, runFor]
  | cons n rest ih =>
    intro h
    have hn : n.note = p := h n (List.mem_cons_self n rest)
    have hrest : ∀ m, m ∈ rest → m.note = p :=
      fun m hm => h m (List.mem_cons_of_mem n hm)
    rcases n with ⟨ts, dur, nt⟩
    simp only at hn
    subst hn
    simp [builtEvents, runFor, ih hrest, Nat.add_sub_cancel_left]

/-- A pitch in the playable range passes admission unchanged under offset 0. -/
theorem resolveNote_zero (m : Nat) (h1 : MidiNote.C1 ≤ m) (h2 : m ≤ MidiNote.G7) :
    resolveNote m 0 = some m := by
  have h103 : m ≤ 103 := h2
  have hco : MidiNote.checked_offset m 0 = some m := by
    have hcond : (0 : Int) ≤ (m : Int) + 0 ∧ (m : Int) + 0 ≤ 127 := by omega
    simp [MidiNote.checked_offset, hcond]
    omega
  have hpc : (MidiNote.pianoroll_channel m).isSome = true := by
    have hcond : MidiNote.C1 ≤ m ∧ m ≤ MidiNote.G7 := ⟨h1, h2⟩
    simp [MidiNote.pianoroll_channel, hcond]
  simp [resolveNote, hco, hpc]

/-- Round trip, per pitch: the resolver's output on the events written by
`MidiImpl::write`, restricted to one pitch, is exactly the original intervals
of that pitch. -/
theorem roundTrip_filter (L : List NoteWithDuration) (p : Nat)
    (hrange : ∀ n, n ∈ L → MidiNote.C1 ≤ n.note ∧ n.note ≤ MidiNote.G7)
    (hsep : List.Pairwise
      (fun a b : NoteWithDuration => a.note = b.note → a.timestamp + a.duration ≤ b.timestamp) L) :
    (note_durations (write_note_events L) (fun _ => some 0)).filter
        (fun x => isIntervalFor p x) =
      L.filter (fun n => n.note == p) := by
  have hproj := (run_proj (fun _ => some 0) p (write_note_events L) initState).2
  have hmem : ∀ e, e ∈ write_note_events L →
      ((resolvedPitch (fun _ => some 0) e == some p) = (e.note == p)) := by
    intro e he
    have he2 : e ∈ builtEvents L :=
      (List.perm_insertionSort evLE (builtEvents L)).mem_iff.mp he
    rcases mem_builtEvents L e he2 with ⟨m, hmL, hnote, _⟩
    have hr := hrange m hmL
    have hres : resolveNote e.note 0 = some e.note := by
      rw [hnote]; exact resolveNote_zero m.note hr.1 hr.2
    simp [resolvedPitch, hres]
  have hfc : (write_note_events L).filter (fun e => resolvedPitch (fun _ => some 0) e == some p)
      = (write_note_events L).filter (fun e => e.note == p) :=
    List.filter_congr hmem
  have hstable : (write_note_events L).filter (fun e => e.note == p)
      = builtEvents (L.filter (fun n => n.note == p)) := by
    rw [write_note_events, sortEvents, filter_insertionSort, filter_builtEvents]
    apply List.Sorted.insertionSort_eq
    apply builtEvents_sorted
    refine (hsep.filter _).imp_of_mem ?_
    intro a b ha hb hr2
    have hap : a.note = p := by simpa using (List.mem_filter.mp ha).2
    have hbp : b.note = p := by simpa using (List.mem_filter.mp hb).2
    exact hr2 (hap.trans hbp.symm)
  have hnotes : ∀ n, n ∈ L.filter (fun n => n.note == p) → n.note = p := by
    intro n hn; simpa using (List.mem_filter.mp hn).2
  rw [hfc, hstable] at hproj
  simp only [initState] at hproj
  rw [runFor_built p _ hnotes] at hproj
  simpa [note_durations, runState, initState] using hproj

/-! ### Claims -/

/-- C1, counterexample: on the feed Press(0,60), Press(10,60), Release(50,60),
Release(60,60) with offset 0, the resolver in `src/midi.rs` emits a re-press
diagnostic although the gap (10 ticks) is within any plausible fudge tolerance
(10 ≤ 480/3 for the typical time base 480 — indeed `note_durations` receives
no time base at all), and it emits an orphan-release diagnostic for the second
Release, which a suppression counter incremented at the re-press would have
absorbed silently.  This refutes both halves of the claim. -/
theorem claim_C1_counterexample :
    (runState [⟨0, 3, 2, 60, NoteAction.on⟩, ⟨10, 3, 2, 60, NoteAction.on⟩,
        ⟨50, 3, 2, 60, NoteAction.off⟩, ⟨60, 3, 2, 60, NoteAction.off⟩]
      (fun _ => some 0)).diags =
      [Diagnostic.alreadyPressed 10 60 3 2 0, Diagnostic.notPressed 60 60 3 2] ∧
    (10 : Nat) - 0 ≤ 480 / 3 := by
  constructor
  · decide
  · decide

/-- C1, amended: in `note_durations` (`src/midi.rs`), a Press whose resolved
pitch's hole is already open always emits exactly one "already pressed"
diagnostic — there is no fudge-factor tolerance (the function receives no time
base) — and changes nothing else: no suppression counter exists, and the
in-flight record and the output are untouched. -/
theorem claim_C1_amended (f : NoteEvent → Option Int) (s : ResolverState)
    (e : NoteEvent) (offset : Int) (note : Nat) (i : InFlightInfo)
    (h1 : f e = some offset) (h2 : resolveNote e.note offset = some note)
    (h3 : e.action = NoteAction.on) (h4 : s.in_flight note = some i) :
    step f s e = { s with diags := s.diags ++
      [Diagnostic.alreadyPressed e.timestamp note i.midi_track i.midi_channel i.timestamp] } :=
  step_on_occupied f s e offset note i h1 h2 h3 h4

/-- C1, witness for the amended claim at a concrete re-press. -/
theorem claim_C1_witness :
    step (fun _ => some 0)
        ⟨[], updateMap (fun _ => none) 60 (some ⟨1, 2, 5⟩), []⟩
        ⟨9, 0, 0, 60, NoteAction.on⟩ =
      { finished := [], in_flight := updateMap (fun _ => none) 60 (some ⟨1, 2, 5⟩),
        diags := [] ++ [Diagnostic.alreadyPressed 9 60 1 2 5] } :=
  claim_C1_amended (fun _ => some 0)
    ⟨[], updateMap (fun _ => none) 60 (some ⟨1, 2, 5⟩), []⟩
    ⟨9, 0, 0, 60, NoteAction.on⟩ 0 60 ⟨1, 2, 5⟩ rfl (by decide) rfl (by decide)

/-- C2, counterexample: on the feed Press(0,72), Press(10,72), Release(50,72),
Release(60,72) with offset 0, the second Release arrives with the hole closed
after one re-press was absorbed; the claim says the suppression counter (then
1) is decremented and the Release dropped silently, but the code has no such
counter and emits an orphan-release diagnostic. -/
theorem claim_C2_counterexample :
    (runState [⟨0, 1, 0, 72, NoteAction.on⟩, ⟨10, 1, 0, 72, NoteAction.on⟩,
        ⟨50, 1, 0, 72, NoteAction.off⟩, ⟨60, 1, 0, 72, NoteAction.off⟩]
      (fun _ => some 0)).diags =
      [Diagnostic.alreadyPressed 10 72 1 0 0, Diagnostic.notPressed 60 72 1 0] ∧
    note_durations [⟨0, 1, 0, 72, NoteAction.on⟩, ⟨10, 1, 0, 72, NoteAction.on⟩,
        ⟨50, 1, 0, 72, NoteAction.off⟩, ⟨60, 1, 0, 72, NoteAction.off⟩]
      (fun _ => some 0) = [⟨0, 50, 72⟩] := by
  constructor
  · decide
  · decide

/-- C2, amended: in `note_durations` (`src/midi.rs`), a Release whose resolved
pitch's hole is closed always emits an orphan-release diagnostic and is
dropped — there is no suppression counter, so no Release is ever absorbed
silently; no interval is emitted and the in-flight state is unchanged. -/
theorem claim_C2_amended (f : NoteEvent → Option Int) (s : ResolverState)
    (e : NoteEvent) (offset : Int) (note : Nat)
    (h1 : f e = some offset) (h2 : resolveNote e.note offset = some note)
    (h3 : e.action = NoteAction.off) (h4 : s.in_flight note = none) :
    step f s e = { s with diags := s.diags ++
      [Diagnostic.notPressed e.timestamp note e.track e.channel] } :=
  step_off_vacant f s e offset note h1 h2 h3 h4

/-- C2, witness for the amended claim: spec scenario D, a Release with no
prior Press. -/
theorem claim_C2_witness :
    step (fun _ => some 0) initState ⟨5, 0, 0, 60, NoteAction.off⟩ =
      { initState with diags := initState.diags ++ [Diagnostic.notPressed 5 60 0 0] } :=
  claim_C2_amended (fun _ => some 0) initState ⟨5, 0, 0, 60, NoteAction.off⟩
    0 60 rfl (by decide) rfl (by decide)

/-- C3, counterexample: on the feed Press(0,60), Press(5,60) with offset 0,
one Press arrives while the hole is open (the state after the first event
holds an in-flight record for pitch 60), yet the feed contains no Release at
all — so zero Releases are absorbed by suppression and zero orphan-release
diagnostics are emitted for pitch 60, and 1 ≠ 0 + 0.  The run's only effect
is the unconditional re-press diagnostic. -/
theorem claim_C3_counterexample :
    (runState [⟨0, 0, 0, 60, NoteAction.on⟩] (fun _ => some 0)).in_flight 60 =
      some ⟨0, 0, 0⟩ ∧
    (runState [⟨0, 0, 0, 60, NoteAction.on⟩, ⟨5, 0, 0, 60, NoteAction.on⟩]
      (fun _ => some 0)).diags = [Diagnostic.alreadyPressed 5 60 0 0 0] ∧
    ([⟨0, 0, 0, 60, NoteAction.on⟩, ⟨5, 0, 0, 60, NoteAction.on⟩] : List NoteEvent).countP
      (fun e => e.action == NoteAction.off) = 0 ∧
    (runState [⟨0, 0, 0, 60, NoteAction.on⟩, ⟨5, 0, 0, 60, NoteAction.on⟩]
      (fun _ => some 0)).diags.countP (fun x => isOrphanFor 60 x) = 0 := by
  refine ⟨by decide, by decide, by decide, by decide⟩

/-- C3, amended: the code maintains no suppression counter and absorbs no
Release, so the true conservation laws of a full pass are: per pitch, the
number of admitted Presses equals the number of emitted intervals plus the
number of re-press ("already pressed") diagnostics plus one if the hole is
left open at feed end; and the number of admitted Releases equals the number
of emitted intervals plus the number of orphan-release diagnostics.  In
particular the number of Presses that arrived while the hole was open equals
the number of re-press diagnostics, not the spec's suppression balance. -/
theorem claim_C3_amended (es : List NoteEvent) (f : NoteEvent → Option Int) (p : Nat) :
    es.countP (fun x => isAdmittedOnFor f p x) =
      (note_durations es f).countP (fun x => isIntervalFor p x) +
        (runState es f).diags.countP (fun x => isRePressFor p x) +
        openFor p (runState es f).in_flight ∧
    es.countP (fun x => isAdmittedOffFor f p x) =
      (note_durations es f).countP (fun x => isIntervalFor p x) +
        (runState es f).diags.countP (fun x => isOrphanFor p x) := by
  constructor
  · have h := run_on_balance f p es initState
    simp [initState, openFor] at h
    simpa [note_durations, runState] using h.symm
  · have h := run_off_balance f p es initState
    simp [initState] at h
    simpa [note_durations, runState] using h.symm

/-- C4, counterexample: the legacy resolver `note_durations` in `src/main.rs`
aborts (panics) on an out-of-range pitch instead of dropping the event with a
diagnostic: pitch 20 lies below C1 = 24, and the whole pass ends in the
panic modelled as `Except.error`. -/
theorem claim_C4_counterexample :
    MainRs.note_durations [⟨0, 0, 0, 20, NoteAction.on⟩] (fun _ => some 0) =
      Except.error (MainPanic.noteOutOfRange 20) := rfl

/-- C4, amended: in the resolver of `src/midi.rs` an out-of-range event is
recoverable exactly as claimed: the event is dropped, a diagnostic carrying
the full event context is appended, nothing else changes, and the pass
continues with the remaining events from that state (the function is total —
it has no panic path); the legacy copy of `note_durations` kept in
`src/main.rs`, however, aborts the pass on any anomalous input. -/
theorem claim_C4_amended (f : NoteEvent → Option Int) (s : ResolverState)
    (e : NoteEvent) (offset : Int) (es : List NoteEvent)
    (h1 : f e = some offset) (h2 : resolveNote e.note offset = none) :
    step f s e = { s with diags := s.diags ++
      [Diagnostic.outOfRange e.timestamp e.track e.channel e.note offset] } ∧
    (e :: es).foldl (step f) s = es.foldl (step f)
      { s with diags := s.diags ++
        [Diagnostic.outOfRange e.timestamp e.track e.channel e.note offset] } := by
  have h := step_out_of_range f s e offset h1 h2
  exact ⟨h, by rw [List.foldl_cons, h]⟩

/-- C4, witness for the amended claim: pitch 110 is above G7 = 103; the event
is dropped with a diagnostic and the next event is processed from the
diagnostic-extended state. -/
theorem claim_C4_witness :
    step (fun _ => some 0) initState ⟨7, 1, 2, 110, NoteAction.on⟩ =
      { initState with diags := initState.diags ++ [Diagnostic.outOfRange 7 1 2 110 0] } ∧
    ([⟨7, 1, 2, 110, NoteAction.on⟩, ⟨8, 1, 2, 60, NoteAction.on⟩] : List NoteEvent).foldl
        (step (fun _ => some 0)) initState =
      ([⟨8, 1, 2, 60, NoteAction.on⟩] : List NoteEvent).foldl (step (fun _ => some 0))
        { initState with diags := initState.diags ++ [Diagnostic.outOfRange 7 1 2 110 0] } :=
  claim_C4_amended (fun _ => some 0) initState ⟨7, 1, 2, 110, NoteAction.on⟩ 0
    [⟨8, 1, 2, 60, NoteAction.on⟩] rfl (by decide)

/-- C5, confirmed: on a feed whose timestamps are nondecreasing, every
emitted interval's start timestamp is the timestamp of some Press event of
the input, and start + duration is the timestamp of some Release event — so
the `u64` subtraction `event.timestamp - start_timestamp` computed the exact
(non-negative) difference and cannot underflow. -/
theorem claim_C5 (es : List NoteEvent) (f : NoteEvent → Option Int)
    (hmono : List.Pairwise (fun a b : NoteEvent => a.timestamp ≤ b.timestamp) es) :
    ∀ nwd, nwd ∈ note_durations es f →
      (∃ e, e ∈ es ∧ e.action = NoteAction.on ∧ e.timestamp = nwd.timestamp) ∧
      (∃ r, r ∈ es ∧ r.action = NoteAction.off ∧
        nwd.timestamp + nwd.duration = r.timestamp) := by
  intro nwd hmem
  exact run_good f es es initState (fun x hx => hx) hmono
    (fun p i hi => absurd hi (by simp [initState]))
    (fun x hx => absurd hx (by simp [initState])) nwd hmem

/-- C5, witness: spec scenario A — Press(0,60), Release(100,60), offset 0
everywhere — at the single emitted interval. -/
theorem claim_C5_witness :
    (∃ e, e ∈ ([⟨0, 0, 0, 60, NoteAction.on⟩, ⟨100, 0, 0, 60, NoteAction.off⟩] : List NoteEvent) ∧
      e.action = NoteAction.on ∧ e.timestamp = (⟨0, 100, 60⟩ : NoteWithDuration).timestamp) ∧
    (∃ r, r ∈ ([⟨0, 0, 0, 60, NoteAction.on⟩, ⟨100, 0, 0, 60, NoteAction.off⟩] : List NoteEvent) ∧
      r.action = NoteAction.off ∧
      (⟨0, 100, 60⟩ : NoteWithDuration).timestamp + (⟨0, 100, 60⟩ : NoteWithDuration).duration = r.timestamp) :=
  claim_C5 [⟨0, 0, 0, 60, NoteAction.on⟩, ⟨100, 0, 0, 60, NoteAction.off⟩]
    (fun _ => some 0) (by decide) ⟨0, 100, 60⟩ (by decide)

/-- C6, confirmed: a Press arriving while its resolved pitch's hole is open
leaves the stored in-flight record and the output untouched (only a
diagnostic is appended), and the interval emitted when a Release then closes
the hole starts at the original press's stored timestamp, not the
re-press's. -/
theorem claim_C6 (f : NoteEvent → Option Int) (s : ResolverState)
    (e r : NoteEvent) (offset offr : Int) (note : Nat) (i : InFlightInfo)
    (h1 : f e = some offset) (h2 : resolveNote e.note offset = some note)
    (h3 : e.action = NoteAction.on) (h4 : s.in_flight note = some i)
    (h5 : f r = some offr) (h6 : resolveNote r.note offr = some note)
    (h7 : r.action = NoteAction.off) :
    (step f s e).in_flight = s.in_flight ∧
    (step f s e).finished = s.finished ∧
    step f (step f s e) r =
      { finished := s.finished ++ [⟨i.timestamp, r.timestamp - i.timestamp, note⟩],
        in_flight := updateMap s.in_flight note none,
        diags := s.diags ++
          [Diagnostic.alreadyPressed e.timestamp note i.midi_track i.midi_channel i.timestamp] } := by
  have h := step_on_occupied f s e offset note i h1 h2 h3 h4
  refine ⟨by rw [h], by rw [h], ?_⟩
  rw [h]
  exact step_off_occupied f _ r offr note i h5 h6 h7 h4

/-- C6, witness: re-press at t = 9 on a hole opened at t = 5, closed at
t = 20; the interval runs from 5, not 9. -/
theorem claim_C6_witness :
    (step (fun _ => some 0) ⟨[], updateMap (fun _ => none) 60 (some ⟨1, 2, 5⟩), []⟩
        ⟨9, 0, 0, 60, NoteAction.on⟩).in_flight =
      (⟨[], updateMap (fun _ => none) 60 (some ⟨1, 2, 5⟩), []⟩ : ResolverState).in_flight ∧
    (step (fun _ => some 0) ⟨[], updateMap (fun _ => none) 60 (some ⟨1, 2, 5⟩), []⟩
        ⟨9, 0, 0, 60, NoteAction.on⟩).finished =
      (⟨[], updateMap (fun _ => none) 60 (some ⟨1, 2, 5⟩), []⟩ : ResolverState).finished ∧
    step (fun _ => some 0)
        (step (fun _ => some 0) ⟨[], updateMap (fun _ => none) 60 (some ⟨1, 2, 5⟩), []⟩
          ⟨9, 0, 0, 60, NoteAction.on⟩)
        ⟨20, 0, 0, 60, NoteAction.off⟩ =
      { finished := [] ++ [⟨5, 20 - 5, 60⟩],
        in_flight := updateMap (updateMap (fun _ => none) 60 (some ⟨1, 2, 5⟩)) 60 none,
        diags := [] ++ [Diagnostic.alreadyPressed 9 60 1 2 5] } :=
  claim_C6 (fun _ => some 0) ⟨[], updateMap (fun _ => none) 60 (some ⟨1, 2, 5⟩), []⟩
    ⟨9, 0, 0, 60, NoteAction.on⟩ ⟨20, 0, 0, 60, NoteAction.off⟩ 0 0 60 ⟨1, 2, 5⟩
    rfl (by decide) rfl (by decide) rfl (by decide) rfl

/-- C7, confirmed: `Note::try_from` (`src/main.rs`) accepts a pitch exactly
when it lies in the closed interval C1..=G7, which spans exactly 80
semitones; both boundaries are accepted and both neighbours outside are
rejected. -/
theorem claim_C7 :
    (∀ raw : Nat, (Note.tryFrom raw).isSome = true ↔
      (MidiNote.C1 ≤ raw ∧ raw ≤ MidiNote.G7)) ∧
    MidiNote.G7 - MidiNote.C1 + 1 = 80 ∧
    Note.tryFrom MidiNote.C1 = some MidiNote.C1 ∧
    Note.tryFrom (MidiNote.C1 - 1) = none ∧
    Note.tryFrom MidiNote.G7 = some MidiNote.G7 ∧
    Note.tryFrom (MidiNote.G7 + 1) = none := by
  refine ⟨?_, by decide, by decide, by decide, by decide, by decide⟩
  intro raw
  rw [Note.tryFrom]
  by_cases h : raw < MidiNote.C1 ∨ raw > MidiNote.G7
  · rw [if_pos h]
    simp only [MidiNote.C1, MidiNote.G7] at h ⊢
    simp
    omega
  · rw [if_neg h]
    simp only [MidiNote.C1, MidiNote.G7] at h ⊢
    simp
    omega

/-- C8, counterexample: the legacy resolver in `src/main.rs` performs
`raw + offset` as an `i8` addition; for the valid raw pitch 127 and the valid
signed 8-bit offset +1 the mathematical sum 128 does not fit in `i8`, so the
sum overflows and the pass aborts — the narrow representation is not wide
enough for every raw pitch in 0..=127 and every signed 8-bit offset. -/
theorem claim_C8_counterexample :
    MainRs.note_durations [⟨0, 0, 0, 127, NoteAction.on⟩] (fun _ => some 1) =
      Except.error (MainPanic.offsetOverflow 127 1) := rfl

/-- C8, amended: the resolver in `src/midi.rs` (through the spec-modelled
`checked_offset` of the missing `src/note.rs`) computes the sum in a wide
representation — whenever admission succeeds, the resolved pitch is the exact
mathematical sum `raw + offset`, validated to lie in the playable interval
C1..=G7 before any narrowing; the legacy resolver in `src/main.rs` instead
adds in `i8`, which overflows when `raw + offset` exceeds 127. -/
theorem claim_C8_amended (note : Nat) (offset : Int) (n : Nat)
    (h : resolveNote note offset = some n) :
    (n : Int) = (note : Int) + offset ∧ MidiNote.C1 ≤ n ∧ n ≤ MidiNote.G7 := by
  have hparts : (MidiNote.pianoroll_channel n).isSome = true ∧
      MidiNote.checked_offset note offset = some n := by
    rw [resolveNote] at h
    rcases hco : MidiNote.checked_offset note offset with _ | m
    · simp only [hco] at h; cases h
    · simp only [hco] at h
      by_cases hb : (MidiNote.pianoroll_channel m).isSome = true
      · rw [if_pos hb] at h
        injection h with h
        subst h
        exact ⟨hb, rfl⟩
      · rw [if_neg hb] at h; cases h
  rcases hparts with ⟨hb, hco⟩
  have hrange : MidiNote.C1 ≤ n ∧ n ≤ MidiNote.G7 := by
    rw [MidiNote.pianoroll_channel] at hb
    by_cases hc : MidiNote.C1 ≤ n ∧ n ≤ MidiNote.G7
    · exact hc
    · rw [if_neg hc] at hb; cases hb
  refine ⟨?_, hrange⟩
  simp only [MidiNote.checked_offset] at hco
  split at hco
  next hcond =>
    injection hco with hco
    rw [← hco]
    exact Int.toNat_of_nonneg hcond.1
  next => cases hco

/-- C8, witness for the amended claim: raw pitch 60 with offset −2 resolves
to exactly 58, inside the playable interval. -/
theorem claim_C8_witness :
    ((58 : Nat) : Int) = ((60 : Nat) : Int) + (-2 : Int) ∧
    MidiNote.C1 ≤ 58 ∧ (58 : Nat) ≤ MidiNote.G7 :=
  claim_C8_amended 60 (-2) 58 (by decide)

/-- C9, confirmed: a Press that opens a hole which the feed never closes
contributes nothing — appending such a trailing Press to any feed changes
neither the returned intervals nor the diagnostics; and, over any full pass,
every returned interval was closed by an explicit admitted Release
(intervals + orphan-release diagnostics = admitted Releases). -/
theorem claim_C9 (es : List NoteEvent) (f : NoteEvent → Option Int)
    (e : NoteEvent) (offset : Int) (note : Nat)
    (h1 : f e = some offset) (h2 : resolveNote e.note offset = some note)
    (h3 : e.action = NoteAction.on) (h4 : (runState es f).in_flight note = none) :
    (note_durations (es ++ [e]) f = note_durations es f ∧
      (runState (es ++ [e]) f).diags = (runState es f).diags) ∧
    (note_durations es f).length +
        (runState es f).diags.countP (fun x => isOrphan x) =
      es.countP (fun x => isAdmittedOff f x) := by
  constructor
  · have hstep : runState (es ++ [e]) f = step f (runState es f) e := by
      rw [runState, runState, List.foldl_append, List.foldl_cons, List.foldl_nil]
    rw [note_durations, note_durations, hstep,
      step_on_vacant f (runState es f) e offset note h1 h2 h3 h4]
    exact ⟨rfl, rfl⟩
  · have h := run_off_conservation f es initState
    simpa [note_durations, runState, initState] using h

/-- C9, witness: a complete pair on pitch 60 followed by a dangling Press on
pitch 61. -/
theorem claim_C9_witness :
    (note_durations ([⟨0, 0, 0, 60, NoteAction.on⟩, ⟨100, 0, 0, 60, NoteAction.off⟩] ++
        [⟨200, 0, 0, 61, NoteAction.on⟩]) (fun _ => some 0) =
      note_durations [⟨0, 0, 0, 60, NoteAction.on⟩, ⟨100, 0, 0, 60, NoteAction.off⟩]
        (fun _ => some 0) ∧
      (runState ([⟨0, 0, 0, 60, NoteAction.on⟩, ⟨100, 0, 0, 60, NoteAction.off⟩] ++
        [⟨200, 0, 0, 61, NoteAction.on⟩]) (fun _ => some 0)).diags =
      (runState [⟨0, 0, 0, 60, NoteAction.on⟩, ⟨100, 0, 0, 60, NoteAction.off⟩]
        (fun _ => some 0)).diags) ∧
    (note_durations [⟨0, 0, 0, 60, NoteAction.on⟩, ⟨100, 0, 0, 60, NoteAction.off⟩]
        (fun _ => some 0)).length +
      (runState [⟨0, 0, 0, 60, NoteAction.on⟩, ⟨100, 0, 0, 60, NoteAction.off⟩]
        (fun _ => some 0)).diags.countP (fun x => isOrphan x) =
      ([⟨0, 0, 0, 60, NoteAction.on⟩, ⟨100, 0, 0, 60, NoteAction.off⟩] : List NoteEvent).countP
        (fun x => isAdmittedOff (fun _ => some 0) x) :=
  claim_C9 [⟨0, 0, 0, 60, NoteAction.on⟩, ⟨100, 0, 0, 60, NoteAction.off⟩]
    (fun _ => some 0) ⟨200, 0, 0, 61, NoteAction.on⟩ 0 61 rfl (by decide) rfl (by decide)

/-- C10, counterexample: for the intervals (0,100,60), (5,10,61) — sorted by
start, in range, non-overlapping per pitch — the resolver emits in release
order, so feeding the written events back yields the two intervals in the
opposite sequence, not "exactly the original" list. -/
theorem claim_C10_counterexample :
    note_durations (write_note_events [⟨0, 100, 60⟩, ⟨5, 10, 61⟩]) (fun _ => some 0) =
      [⟨5, 10, 61⟩, ⟨0, 100, 60⟩] ∧
    ([⟨5, 10, 61⟩, ⟨0, 100, 60⟩] : List NoteWithDuration) ≠ [⟨0, 100, 60⟩, ⟨5, 10, 61⟩] := by
  constructor
  · decide
  · decide

/-- C10, amended: under the claim's hypotheses — intervals sorted by start
timestamp, all pitches in the playable range, and for each pitch pairwise
non-overlapping (each interval ends no later than the next one of the same
pitch begins) — feeding the event sequence that `MidiImpl::write` constructs
back through `note_durations` with the constant offset-0 filter yields
exactly the original intervals as a multiset (a permutation); the sequence
order may differ because the resolver emits in release order. -/
theorem claim_C10_amended (L : List NoteWithDuration)
    (_hsort : List.Pairwise (fun a b : NoteWithDuration => a.timestamp ≤ b.timestamp) L)
    (hrange : ∀ n, n ∈ L → MidiNote.C1 ≤ n.note ∧ n.note ≤ MidiNote.G7)
    (hsep : List.Pairwise
      (fun a b : NoteWithDuration => a.note = b.note → a.timestamp + a.duration ≤ b.timestamp) L) :
    (note_durations (write_note_events L) (fun _ => some 0)).Perm L := by
  apply List.perm_iff_count.mpr
  intro x
  have h1 := roundTrip_filter L x.note hrange hsep
  have hcl : List.count x ((note_durations (write_note_events L) (fun _ => some 0)).filter
        (fun y => isIntervalFor x.note y)) =
      List.count x (note_durations (write_note_events L) (fun _ => some 0)) :=
    List.count_filter (by simp [isIntervalFor])
  have hcr : List.count x (L.filter (fun n => n.note == x.note)) = List.count x L :=
    List.count_filter (by simp)
  rw [← hcl, h1, hcr]

/-- C10, witness for the amended claim at the counterexample input. -/
theorem claim_C10_witness :
    (note_durations (write_note_events [⟨0, 100, 60⟩, ⟨5, 10, 61⟩])
      (fun _ => some 0)).Perm [⟨0, 100, 60⟩, ⟨5, 10, 61⟩] :=
  claim_C10_amended [⟨0, 100, 60⟩, ⟨5, 10, 61⟩] (by decide)
    (by decide) (by decide)
